import Mathlib

/- Verification of the tag-matching and deletion-scheduling pipeline of
   hub-tag-delete.py (hoverkraft-tech/docker-hub-tag-delete).

   The Python source is shallowly embedded: text is `List Char` (Python str),
   HTTP responses are explicit data, the `requests` session is a list of
   server responses consumed in request order, and exceptions are `Except`.
   `datetime.strptime` with the configured format is abstracted as an oracle
   `parseDate : Text → Option Int` carried by the environment (a parsed
   datetime is an abstract instant, compared with the run's captured `now`);
   `fnmatch.fnmatch` is implemented in full (`*`, `?`, `[...]`, `[!...]`
   classes with ranges, unmatched `[` literal), matching CPython's
   `fnmatch.translate` semantics on a case-sensitive platform.
   Authentication (`docker_hub_token`) is modelled by the status the login
   endpoint answers with; the token value itself is irrelevant to the claims. -/

abbrev Text := List Char

def txt (s : String) : Text := s.toList

/-- Python `str.strip()` whitespace set (ASCII part). -/
def pyIsSpace (c : Char) : Bool :=
  c = ' ' || c = '\t' || c = '\n' || c = '\r' || c = '\x0b' || c = '\x0c'

/-- Python `str.strip()`. -/
def strip (t : Text) : Text :=
  ((t.dropWhile pyIsSpace).reverse.dropWhile pyIsSpace).reverse

/-- Python `str.split(sep)` for a one-character separator: never returns `[]`,
`"".split(c) = [""]`. -/
def splitOnChar (sep : Char) : Text → List Text
  | [] => [[]]
  | c :: rest =>
    let r := splitOnChar sep rest
    if c = sep then [] :: r
    else
      match r with
      | [] => [[c]]
      | h :: t => (c :: h) :: t

/-- Python `str.startswith(p)`. -/
def startsWith (line p : Text) : Bool := List.isPrefixOf p line

/- ===== fnmatch (Python `fnmatch.fnmatch`) ===== -/

/-- Scan a character-class body up to the closing `]`; `none` when the
bracket is unmatched (Python then treats `[` as a literal). -/
def scanClose : List Char → Option (List Char × List Char)
  | [] => none
  | c :: r =>
    if c = ']' then some ([], r)
    else
      match scanClose r with
      | none => none
      | some (s, rest) => some (c :: s, rest)

/-- Split the text following `[` into (negated, class body, remainder);
a `]` directly after `[` or `[!` is a literal member of the class. -/
def splitClass (pat : List Char) : Option (Bool × List Char × List Char) :=
  match pat with
  | '!' :: ']' :: r =>
    (match scanClose r with
     | none => none
     | some (s, rest) => some (true, ']' :: s, rest))
  | '!' :: r =>
    (match scanClose r with
     | none => none
     | some (s, rest) => some (true, s, rest))
  | ']' :: r =>
    (match scanClose r with
     | none => none
     | some (s, rest) => some (false, ']' :: s, rest))
  | r =>
    (match scanClose r with
     | none => none
     | some (s, rest) => some (false, s, rest))

/-- Class body as (lo, hi) ranges; a lone character is a one-point range,
`a-b` is a range, a `-` at either end is a literal. -/
def parseItems : List Char → List (Char × Char)
  | [] => []
  | a :: '-' :: b :: rest => (a, b) :: parseItems rest
  | a :: rest => (a, a) :: parseItems rest

def matchClass (neg : Bool) (stuff : List Char) (c : Char) : Bool :=
  let hit := (parseItems stuff).any (fun ab => ab.1 ≤ c && c ≤ ab.2)
  if neg then !hit else hit

/-- Glob matcher core. `fuel` is a structural-recursion bound: every
recursive call strictly decreases `pat.length + name.length` (the `*` case
either drops the star or consumes one name character; the class case drops
at least `[x]` from the pattern and one name character), so
`pat.length + name.length + 1` fuel always suffices and the `0` branch is
unreachable from `fnmatchList`. -/
def fnGo : Nat → List Char → List Char → Bool
  | 0, _, _ => false
  | _ + 1, [], [] => true
  | _ + 1, [], _ :: _ => false
  | fuel + 1, '*' :: ps, name =>
    fnGo fuel ps name ||
      (match name with
       | [] => false
       | _ :: ns => fnGo fuel ('*' :: ps) ns)
  | fuel + 1, '?' :: ps, name =>
    (match name with
     | [] => false
     | _ :: ns => fnGo fuel ps ns)
  | fuel + 1, '[' :: ps, name =>
    (match splitClass ps with
     | none =>
       (match name with
        | [] => false
        | c :: ns => ('[' = c) && fnGo fuel ps ns)
     | some (neg, stuff, rest) =>
       (match name with
        | [] => false
        | c :: ns => matchClass neg stuff c && fnGo fuel rest ns))
  | fuel + 1, p :: ps, name =>
    (match name with
     | [] => false
     | c :: ns => (p = c) && fnGo fuel ps ns)

/-- `fnmatch.fnmatch(name, pat)` (case-sensitive platform: `normcase` is the
identity). The whole name must match. -/
def fnmatchList (pat name : List Char) : Bool :=
  fnGo (pat.length + name.length + 1) pat name

/- ===== Source records and the Markdown reader ===== -/

structure Record where
  tags : List Text
  date : Text
  deriving DecidableEq

/-- The Markdown-related configuration entries of the global `config` dict. -/
structure MdConfig where
  begin_string : Text
  end_string : Text
  tag_column : Nat
  date_column : Nat

inductive MdErr where
  | columnRange
  deriving DecidableEq

/-- `parse_md_line`: split the stripped row on `|`, check the configured
column indices against `len(md) - 1`, select the cells, strip them, delete
backticks from the tag cell and split it on commas. -/
def parse_md_line (cfg : MdConfig) (line : Text) : Except MdErr Record :=
  let md := splitOnChar '|' (strip line)
  if md.length - 1 < cfg.tag_column then .error .columnRange
  else if md.length - 1 < cfg.date_column then .error .columnRange
  else
    let tagsCell := md.getD cfg.tag_column []
    let dateCell := md.getD cfg.date_column []
    let tagsStr := (strip tagsCell).filter (fun c => c != Char.ofNat 96)
    let dateStr := strip dateCell
    Except.ok { tags := splitOnChar ',' tagsStr, date := dateStr }

/-- `line_is_ignored`: the line starts with the begin or the end marker. -/
def line_is_ignored (cfg : MdConfig) (line : Text) : Bool :=
  startsWith line cfg.begin_string || startsWith line cfg.end_string

/-- A line that `get_readme_table` counts and (after the first two) parses:
starts with `|`, is not a marker line, and is not blank. -/
def isCandidate (cfg : MdConfig) (l : Text) : Bool :=
  startsWith l [ '|' ] && !(line_is_ignored cfg l) && !(strip l).isEmpty

def parsingAfterBegin (cfg : MdConfig) (l : Text) (parsing : Bool) : Bool :=
  if startsWith l cfg.begin_string then true else parsing

def parsingAfterEnd (cfg : MdConfig) (l : Text) (parsing : Bool) : Bool :=
  if startsWith l cfg.end_string then false else parsing

/-- The loop of `get_readme_table`: `parsing` is toggled by the markers,
`n` is the file-global `linenum` counter, `items` the accumulated rows. -/
def grtGo (cfg : MdConfig) : List Text → Bool → Nat → List Record → Except MdErr (List Record)
  | [], _, _, items => .ok items
  | l :: ls, parsing, n, items =>
    let p1 := parsingAfterBegin cfg l parsing
    let p2 := parsingAfterEnd cfg l p1
    if p1 && isCandidate cfg l then
      (if 2 < n + 1 then
        match parse_md_line cfg l with
        | .error e => .error e
        | .ok r => grtGo cfg ls p2 (n + 1) (items ++ [r])
      else grtGo cfg ls p2 (n + 1) items)
    else grtGo cfg ls p2 n items

/-- `get_readme_table` over the file's lines (as `readlines` yields them). -/
def get_readme_table (cfg : MdConfig) (lines : List Text) : Except MdErr (List Record) :=
  grtGo cfg lines false 0 []

/-- The candidate rows of the active table regions, in file order. -/
def candGo (cfg : MdConfig) : List Text → Bool → List Text
  | [], _ => []
  | l :: ls, parsing =>
    let p1 := parsingAfterBegin cfg l parsing
    let p2 := parsingAfterEnd cfg l p1
    if p1 && isCandidate cfg l then l :: candGo cfg ls p2
    else candGo cfg ls p2

def tableCandidates (cfg : MdConfig) (lines : List Text) : List Text :=
  candGo cfg lines false

/-- Error-propagating map (Python: append parsed rows, raise at the first
bad one). -/
def mapME (f : α → Except ε β) : List α → Except ε (List β)
  | [] => .ok []
  | a :: as =>
    match f a with
    | .error e => .error e
    | .ok b =>
      match mapME f as with
      | .error e => .error e
      | .ok bs => .ok (b :: bs)

/- ===== Registry client and pipeline ===== -/

inductive Err where
  | http (status : Nat)
  | jsonDecode
  | noResponse
  | dateParse
  | typeError
  deriving DecidableEq

/-- Decoded JSON body of a tag-listing page: `results` are the tag names,
`next` whether the `next` field is a (truthy) URL rather than `null`. -/
structure PageBody where
  results : List Text
  next : Bool
  deriving DecidableEq

/-- One HTTP response of the listing endpoint; `body = none` models a
response whose body is not JSON-decodable. -/
structure PageResp where
  status : Nat
  body : Option PageBody
  deriving DecidableEq

/-- `requests.Response.raise_for_status` raises exactly for 4xx and 5xx. -/
def raisesStatus (s : Nat) : Bool := decide (400 ≤ s ∧ s < 600)

/-- The run environment: the global `config`/`now`/`session` state plus the
behaviour of the remote endpoints. `pages` is the sequence of responses the
listing endpoint serves (first element answers the initial request, the
following ones answer the successive `next`-link requests); the registry does
not change mid-run, so every listing run sees the same sequence.
`records` is the combined `get_tag_list()` result (JSON records then
Markdown records); no claim concerns the concatenation itself. -/
structure Env where
  now : Int
  parseDate : Text → Option Int
  records : List Record
  authStatus : Nat
  pages : List PageResp
  deleteStatus : Text → Nat
  org : Text
  repo : Text

/-- `parse_date`: `datetime.strptime(date, config['date_format'])`, as the
environment's oracle; `none` models the `ValueError` raise. -/
def parse_date (env : Env) (date : Text) : Option Int := env.parseDate date

/-- `docker_hub_token`: POST to the login endpoint and `raise_for_status`. -/
def docker_hub_token (env : Env) : Except Err Unit :=
  if raisesStatus env.authStatus then .error (.http env.authStatus) else .ok ()

/-- The `while True` pagination loop of `tags_matching_pattern`, from the
first `next`-link request on. Each fetched response has its status checked:
a 404 executes `break`, which falls past the `return` — the Python function
then returns `None`, modelled as `.ok none`; any other 4xx/5xx re-raises.
A 2xx response has its JSON decoded and its matching names appended. -/
def listPages (pat : Text) : List PageResp → List Text → Except Err (Option (List Text))
  | [], _ => .error .noResponse
  | p :: rest, acc =>
    if raisesStatus p.status then
      (if p.status = 404 then .ok none else .error (.http p.status))
    else
      match p.body with
      | none => .error .jsonDecode
      | some b =>
        let acc2 := acc ++ b.results.filter (fun t => fnmatchList pat t)
        if b.next then listPages pat rest acc2 else .ok (some acc2)

/-- `tags_matching_pattern`: authenticate, GET the first page — whose status
is never checked (`raise_for_status` is only reached for `next`-link
responses) — then follow pagination. -/
def tags_matching_pattern (env : Env) (pat : Text) : Except Err (Option (List Text)) :=
  match docker_hub_token env with
  | .error e => .error e
  | .ok _ =>
    match env.pages with
    | [] => .error .noResponse
    | p :: rest =>
      match p.body with
      | none => .error .jsonDecode
      | some b =>
        let acc := b.results.filter (fun t => fnmatchList pat t)
        if b.next then listPages pat rest acc else .ok (some acc)

/-- The inner pattern loop of `tags_to_delete`: strip each pattern, run a
fresh listing for it, append the (possibly `None`) result row. The `Nat`
counts listing runs (invocations of `tags_matching_pattern`). -/
def patLoop (env : Env) : List Text → List (Option (List Text)) → Nat → Except Err (List (Option (List Text)) × Nat)
  | [], acc, n => .ok (acc, n)
  | p :: ps, acc, n =>
    match tags_matching_pattern env (strip p) with
    | .error e => .error e
    | .ok t => patLoop env ps (acc ++ [t]) (n + 1)

/-- The record loop of `tags_to_delete`: for every record, parse its date
(a mismatch raises) and, when `now >= parse_date(...)`, process its
patterns. -/
def recLoop (env : Env) : List Record → List (Option (List Text)) → Nat → Except Err (List (Option (List Text)) × Nat)
  | [], acc, n => .ok (acc, n)
  | r :: rs, acc, n =>
    match parse_date env r.date with
    | none => .error .dateParse
    | some d =>
      if env.now ≥ d then
        match patLoop env r.tags acc n with
        | .error e => .error e
        | .ok (acc2, n2) => recLoop env rs acc2 n2
      else recLoop env rs acc n

/-- The flattening comprehension `[i for row in tags_list for i in row]`:
iterating a `None` row raises `TypeError`. -/
def flattenRows : List (Option (List Text)) → Option (List Text)
  | [] => some []
  | none :: _ => none
  | some l :: rest => (flattenRows rest).map (fun r => l ++ r)

/-- `tags_to_delete`, also reporting how many listing runs it performed. -/
def tags_to_delete (env : Env) : Except Err (List Text × Nat) :=
  match recLoop env env.records [] 0 with
  | .error e => .error e
  | .ok (acc, n) =>
    if 0 < acc.length then
      match flattenRows acc with
      | none => .error .typeError
      | some l => .ok (l, n)
    else .ok ([], n)

/-- Observable outcome of `delete_expired_tags`: the DELETE requests issued
(in order), the deletions the server applied (2xx answers), and the Python
return value or uncaught exception. -/
structure DelOut where
  calls : List Text
  applied : List Text
  result : Except Err (List Text)

/-- The delete loop: issue a DELETE per tag, `raise_for_status`, then record
the tag as deleted. A raise aborts the loop; the server keeps the deletions
already applied. -/
def delGo (env : Env) : List Text → List Text → List Text → DelOut
  | [], calls, deleted => ⟨calls, deleted, .ok deleted⟩
  | t :: ts, calls, deleted =>
    let s := env.deleteStatus t
    if raisesStatus s then ⟨calls ++ [t], deleted, .error (.http s)⟩
    else delGo env ts (calls ++ [t]) (deleted ++ [t])

/-- `delete_expired_tags`: fetch a token, re-run `tags_to_delete`, then
delete each returned tag in order. -/
def delete_expired_tags (env : Env) : DelOut :=
  match docker_hub_token env with
  | .error e => ⟨[], [], .error e⟩
  | .ok _ =>
    match tags_to_delete env with
    | .error e => ⟨[], [], .error e⟩
    | .ok (tags, _) => delGo env tags [] []

/-- The confirmation line `"> Deleted {org}/{repo}:{tag}"`. -/
def mkLine (env : Env) (t : Text) : Text :=
  txt "> Deleted " ++ env.org ++ txt "/" ++ env.repo ++ txt ":" ++ t

/-- Observable outcome of a whole `__main__` run. -/
structure MainOut where
  printed : List Text
  deleteCalls : List Text
  applied : List Text
  result : Except Err Unit

/-- The `__main__` block: compute `_tags`; when non-empty run
`delete_expired_tags()` and only afterwards print one line per tag of
`_tags`; otherwise print the no-tags message. An uncaught exception
anywhere aborts with a non-zero exit and nothing printed. -/
def main_run (env : Env) : MainOut :=
  match tags_to_delete env with
  | .error e => ⟨[], [], [], .error e⟩
  | .ok (tags, _) =>
    if 0 < tags.length then
      let d := delete_expired_tags env
      match d.result with
      | .error e => ⟨[], d.calls, d.applied, .error e⟩
      | .ok _ => ⟨tags.map (mkLine env), d.calls, d.applied, .ok ()⟩
    else ⟨[txt "There are no tags to delete."], [], [], .ok ()⟩

def exceptOk : Except ε α → Bool
  | .ok _ => true
  | .error _ => false

/- ===== Specification-side definitions ===== -/

/-- The live tags a fully-successful pagination run would deliver, in
server order. -/
def pagesTags : List PageResp → List Text
  | [] => []
  | p :: rest =>
    match p.body with
    | none => []
    | some b => b.results ++ (if b.next then pagesTags rest else [])

/-- A listing-response sequence on which every page decodes, no status is
4xx/5xx, and the `next` chain is covered by the sequence. -/
def wfPages : List PageResp → Bool
  | [] => false
  | p :: rest =>
    match p.body with
    | none => false
    | some b => !raisesStatus p.status && (if b.next then wfPages rest else true)

/-- The due test the code performs on a record (line 152:
`now >= parse_date(item['date'])`). -/
def recDue (env : Env) (r : Record) : Bool :=
  match parse_date env r.date with
  | some d => decide (env.now ≥ d)
  | none => false

/-- The live tags matching one (unstripped) source pattern. -/
def matchesOf (env : Env) (p : Text) : List Text :=
  (pagesTags env.pages).filter (fun t => fnmatchList (strip p) t)

/-- Per-pattern match lists of the due records, in record order then
pattern order. -/
def dueLists (env : Env) (rs : List Record) : List (List Text) :=
  (rs.filter (recDue env)).flatMap (fun r => r.tags.map (matchesOf env))

/-- One listing run per pattern of each due record. -/
def spec_expectedFetches (env : Env) (rs : List Record) : Nat :=
  ((rs.filter (recDue env)).map (fun r => r.tags.length)).sum

def spec_dueCount (env : Env) : Nat :=
  (env.records.filter (recDue env)).length

/-- Spec-side cell count of a Markdown row: the row is split on `|` and the
cells are addressed 1-based (index 0 is the text before the leading pipe,
empty for a well-formed row), so the addressable cells are positions
`1 .. len - 1` of the split and their number is `len - 1`. A row with a
trailing pipe therefore has a last, empty cell. -/
def spec_cellCount (line : Text) : Nat :=
  (splitOnChar '|' (strip line)).length - 1

/- ===== Concrete runs ===== -/

def dateJan1 : Text := txt "January 01, 2020"

/-- A date oracle for the default format with one known date; every other
string raises. -/
def pd0 : Text → Option Int := fun s => if s = dateJan1 then some 0 else none

def mkPage (rs : List Text) (nx : Bool) : PageResp :=
  { status := 200, body := some { results := rs, next := nx } }

def baseEnv : Env :=
  { now := 0, parseDate := pd0, records := [], authStatus := 200,
    pages := [], deleteStatus := fun _ => 200,
    org := txt "org", repo := txt "repo" }

/-- Two pages with non-null `next`, then a 404 answering the third
`next`-link request. -/
def env1 : Env :=
  { baseEnv with
    records := [{ tags := [txt "1.*"], date := dateJan1 }],
    pages := [mkPage [txt "1.0", txt "1.2"] true,
              mkPage [txt "1.5", txt "2.0"] true,
              { status := 404, body := none }] }

/-- A 500 first page whose body is nonetheless well-formed JSON. -/
def env2 : Env :=
  { baseEnv with
    records := [{ tags := [txt "1.*"], date := dateJan1 }],
    pages := [{ status := 500, body := some { results := [txt "1.0"], next := false } },
              mkPage [] false] }

/-- Three matched tags; the DELETE of the second answers 500. -/
def env3 : Env :=
  { baseEnv with
    records := [{ tags := [txt "v*"], date := dateJan1 }],
    pages := [mkPage [txt "v1", txt "v2", txt "v3"] false],
    deleteStatus := fun t => if t = txt "v2" then 500 else 200 }

/-- Like `env3` but every DELETE succeeds. -/
def env5 : Env :=
  { env3 with deleteStatus := fun _ => 200 }

/-- The spec's matcher example: pattern `1.*`, live tags 1.0, 1.2.3, 2.0. -/
def envG : Env :=
  { baseEnv with
    records := [{ tags := [txt "1.*"], date := dateJan1 }],
    pages := [mkPage [txt "1.0", txt "1.2.3", txt "2.0"] false] }

/-- One due record with two patterns over the same live tags. -/
def env9 : Env :=
  { envG with records := [{ tags := [txt "1.*", txt "*"], date := dateJan1 }] }

/-- Pagination whose `next` request answers 500. -/
def envA : Env :=
  { baseEnv with
    pages := [mkPage [txt "1.0"] true, { status := 500, body := none }] }

/-- Pagination whose `next` request answers 404. -/
def envB : Env :=
  { baseEnv with
    pages := [mkPage [txt "1.0"] true, { status := 404, body := none }] }

/-- A due well-formed record followed by a record with a malformed date. -/
def envBad : Env :=
  { envG with
    records := [{ tags := [txt "1.*"], date := dateJan1 },
                { tags := [txt "1.*"], date := txt "13/45/2024" }] }

def mdCfg : MdConfig :=
  { begin_string := txt "<!-- BEGIN deletion_table -->",
    end_string := txt "<!-- END deletion_table -->",
    tag_column := 1, date_column := 2 }

/-- A README with two marker-delimited table regions, each with its own
header and separator rows. -/
def twoRegionFile : List Text :=
  [ txt "# Title\n",
    txt "<!-- BEGIN deletion_table -->\n",
    txt "| Tags | Date |\n",
    txt "|---|---|\n",
    txt "| `v1` | January 01, 2020 |\n",
    txt "<!-- END deletion_table -->\n",
    txt "some prose\n",
    txt "<!-- BEGIN deletion_table -->\n",
    txt "| Tags | Date |\n",
    txt "|---|---|\n",
    txt "| `v2` | January 02, 2020 |\n",
    txt "<!-- END deletion_table -->\n" ]

/- ===== Helper lemmas ===== -/

theorem flattenRows_map_some : ∀ (ls : List (List Text)),
    flattenRows (ls.map some) = some ls.flatten
  | [] => rfl
  | l :: ls => by simp [flattenRows, flattenRows_map_some ls]

theorem listPages_wf (pat : Text) : ∀ (pages : List PageResp) (acc : List Text),
    wfPages pages = true →
    listPages pat pages acc =
      .ok (some (acc ++ (pagesTags pages).filter (fun t => fnmatchList pat t))) := by
  intro pages
  induction pages with
  | nil => intro acc h; simp [wfPages] at h
  | cons p rest ih =>
    intro acc h
    match hb : p.body with
    | none => simp [wfPages, hb] at h
    | some b =>
      simp only [wfPages, hb, Bool.and_eq_true, Bool.not_eq_true'] at h
      obtain ⟨hs, h2⟩ := h
      simp only [listPages, hs, hb, pagesTags]
      by_cases hn : b.next = true
      · rw [hn] at h2
        simp only [if_true] at h2
        simp only [hn, if_true]
        rw [ih _ h2]
        simp [List.filter_append, List.append_assoc]
      · have hn' : b.next = false := by revert hn; cases b.next <;> simp
        simp [hn']


theorem tags_matching_pattern_wf (env : Env) (pat : Text)
    (hauth : raisesStatus env.authStatus = false) (hwf : wfPages env.pages = true) :
    tags_matching_pattern env pat =
      .ok (some ((pagesTags env.pages).filter (fun t => fnmatchList pat t))) := by
  unfold tags_matching_pattern docker_hub_token
  rw [hauth]
  simp only [Bool.false_eq_true, if_false]
  match hp : env.pages with
  | [] => rw [hp] at hwf; simp [wfPages] at hwf
  | p :: rest =>
    rw [hp] at hwf
    match hb : p.body with
    | none => simp [wfPages, hb] at hwf
    | some b =>
      simp only [wfPages, hb, Bool.and_eq_true, Bool.not_eq_true'] at hwf
      obtain ⟨hs, h2⟩ := hwf
      simp only [hb, pagesTags]
      by_cases hn : b.next = true
      · rw [hn] at h2
        simp only [if_true] at h2
        simp only [hn, if_true]
        rw [listPages_wf pat rest _ h2]
        simp [List.filter_append]
      · have hn' : b.next = false := by revert hn; cases b.next <;> simp
        simp [hn']

theorem patLoop_wf (env : Env)
    (hauth : raisesStatus env.authStatus = false) (hwf : wfPages env.pages = true) :
    ∀ (ps : List Text) (acc : List (Option (List Text))) (n : Nat),
    patLoop env ps acc n =
      .ok (acc ++ ps.map (fun p => some (matchesOf env p)), n + ps.length) := by
  intro ps
  induction ps with
  | nil => intro acc n; simp [patLoop]
  | cons p ps ih =>
    intro acc n
    simp only [patLoop, tags_matching_pattern_wf env (strip p) hauth hwf]
    rw [ih]
    simp only [Except.ok.injEq, Prod.mk.injEq]
    constructor
    · simp [matchesOf, List.append_assoc]
    · simp [List.length_cons]
      omega

theorem recLoop_append (env : Env)
    (hauth : raisesStatus env.authStatus = false) (hwf : wfPages env.pages = true) :
    ∀ (pre rest : List Record) (acc : List (Option (List Text))) (n : Nat),
    (∀ r ∈ pre, (parse_date env r.date).isSome = true) →
    recLoop env (pre ++ rest) acc n =
      recLoop env rest (acc ++ (dueLists env pre).map some)
        (n + spec_expectedFetches env pre) := by
  intro pre
  induction pre with
  | nil =>
    intro rest acc n _
    simp [dueLists, spec_expectedFetches]
  | cons r pre ih =>
    intro rest acc n hparse
    have hr : (parse_date env r.date).isSome = true := hparse r (by simp)
    match hd : parse_date env r.date with
    | none => rw [hd] at hr; simp at hr
    | some d =>
      simp only [List.cons_append, recLoop, hd]
      by_cases hn : env.now ≥ d
      · have hdue : recDue env r = true := by simp [recDue, hd, hn]
        rw [if_pos hn, patLoop_wf env hauth hwf]
        have hgoal1 : acc ++ r.tags.map (fun p => some (matchesOf env p)) ++
            (dueLists env pre).map some = acc ++ (dueLists env (r :: pre)).map some := by
          simp [dueLists, List.filter_cons, hdue, List.append_assoc, Function.comp,
            List.map_map]
        have hgoal2 : n + r.tags.length + spec_expectedFetches env pre =
            n + spec_expectedFetches env (r :: pre) := by
          simp [spec_expectedFetches, List.filter_cons, hdue]
          omega
        calc (match Except.ok (acc ++ r.tags.map (fun p => some (matchesOf env p)),
                n + r.tags.length) with
              | Except.error e => Except.error e
              | Except.ok (acc2, n2) => recLoop env (pre.append rest) acc2 n2)
            = recLoop env (pre ++ rest)
                (acc ++ r.tags.map (fun p => some (matchesOf env p)))
                (n + r.tags.length) := rfl
          _ = recLoop env rest
                ((acc ++ r.tags.map (fun p => some (matchesOf env p))) ++
                  (dueLists env pre).map some)
                (n + r.tags.length + spec_expectedFetches env pre) :=
              ih rest _ _ (fun q hq => hparse q (by simp [hq]))
          _ = recLoop env rest (acc ++ (dueLists env (r :: pre)).map some)
                (n + spec_expectedFetches env (r :: pre)) := by rw [hgoal1, hgoal2]
      · have hdue : recDue env r = false := by simp [recDue, hd, hn]
        rw [if_neg hn]
        have hgoal1 : acc ++ (dueLists env pre).map some =
            acc ++ (dueLists env (r :: pre)).map some := by
          simp [dueLists, List.filter_cons, hdue]
        have hgoal2 : n + spec_expectedFetches env pre =
            n + spec_expectedFetches env (r :: pre) := by
          simp [spec_expectedFetches, List.filter_cons, hdue]
        calc recLoop env (pre.append rest) acc n
            = recLoop env (pre ++ rest) acc n := rfl
          _ = recLoop env rest (acc ++ (dueLists env pre).map some)
                (n + spec_expectedFetches env pre) :=
              ih rest _ _ (fun q hq => hparse q (by simp [hq]))
          _ = recLoop env rest (acc ++ (dueLists env (r :: pre)).map some)
                (n + spec_expectedFetches env (r :: pre)) := by rw [hgoal1, hgoal2]

theorem tags_to_delete_wf (env : Env)
    (hauth : raisesStatus env.authStatus = false) (hwf : wfPages env.pages = true)
    (hparse : ∀ r ∈ env.records, (parse_date env r.date).isSome = true) :
    tags_to_delete env =
      .ok ((dueLists env env.records).flatten,
           spec_expectedFetches env env.records) := by
  unfold tags_to_delete
  have h := recLoop_append env hauth hwf env.records [] [] 0 hparse
  rw [List.append_nil] at h
  rw [h]
  simp only [recLoop, List.nil_append, Nat.zero_add]
  by_cases hlen : 0 < ((dueLists env env.records).map some).length
  · rw [if_pos hlen, flattenRows_map_some]
  · have hnil : dueLists env env.records = [] := by
      cases h' : dueLists env env.records with
      | nil => rfl
      | cons a as => rw [h'] at hlen; simp at hlen
    rw [if_neg hlen, hnil]
    simp

theorem delGo_abort (env : Env) (t : Text)
    (ht : raisesStatus (env.deleteStatus t) = true) :
    ∀ (pre post calls deleted : List Text),
    (∀ x ∈ pre, raisesStatus (env.deleteStatus x) = false) →
    delGo env (pre ++ t :: post) calls deleted =
      ⟨calls ++ pre ++ [t], deleted ++ pre, .error (.http (env.deleteStatus t))⟩ := by
  intro pre
  induction pre with
  | nil =>
    intro post calls deleted _
    simp [delGo, ht]
  | cons x pre ih =>
    intro post calls deleted hpre
    have hx : raisesStatus (env.deleteStatus x) = false := hpre x (by simp)
    simp only [List.cons_append, delGo, hx, Bool.false_eq_true, if_false]
    calc delGo env (pre.append (t :: post)) (calls ++ [x]) (deleted ++ [x])
        = delGo env (pre ++ t :: post) (calls ++ [x]) (deleted ++ [x]) := rfl
      _ = ⟨calls ++ [x] ++ pre ++ [t], deleted ++ [x] ++ pre,
            .error (.http (env.deleteStatus t))⟩ :=
          ih post (calls ++ [x]) (deleted ++ [x]) (fun q hq => hpre q (by simp [hq]))
      _ = ⟨calls ++ x :: pre ++ [t], deleted ++ x :: pre,
            .error (.http (env.deleteStatus t))⟩ := by
          simp [List.append_assoc]

theorem grtGo_eq (cfg : MdConfig) :
    ∀ (lines : List Text) (parsing : Bool) (n : Nat) (items : List Record),
    grtGo cfg lines parsing n items =
      Except.map (fun rest => items ++ rest)
        (mapME (parse_md_line cfg) ((candGo cfg lines parsing).drop (2 - n))) := by
  intro lines
  induction lines with
  | nil => intro parsing n items; simp [grtGo, candGo, mapME, Except.map]
  | cons l ls ih =>
    intro parsing n items
    simp only [grtGo, candGo]
    by_cases hc : (parsingAfterBegin cfg l parsing && isCandidate cfg l) = true
    · rw [if_pos hc, if_pos hc]
      by_cases h2 : 2 < n + 1
      · rw [if_pos h2]
        have hn0 : 2 - n = 0 := by omega
        have hn1 : 2 - (n + 1) = 0 := by omega
        rw [hn0, List.drop_zero]
        simp only [mapME]
        match hp : parse_md_line cfg l with
        | .error e => simp [Except.map]
        | .ok r =>
          have hgr := ih (parsingAfterEnd cfg l (parsingAfterBegin cfg l parsing))
            (n + 1) (items ++ [r])
          rw [hn1, List.drop_zero] at hgr
          cases hm : mapME (parse_md_line cfg)
              (candGo cfg ls (parsingAfterEnd cfg l (parsingAfterBegin cfg l parsing))) with
          | error e =>
            rw [hm] at hgr
            simp [Except.map, hgr]
          | ok bs =>
            rw [hm] at hgr
            simp [Except.map, hgr, List.append_assoc]
      · rw [if_neg h2]
        rw [ih _ (n + 1) items]
        have hstep : 2 - n = (2 - (n + 1)) + 1 := by omega
        rw [hstep, List.drop_succ_cons]
    · rw [if_neg hc, if_neg hc]
      exact ih _ n items

/- ===== Claims ===== -/

/-- C1: the claim states that a `tags_matching_pattern` run whose server
returns pages with non-null `next` links and then answers a `next` request
with 404 returns the concatenation of the matching names of the fetched
pages and raises no error. Evaluating the code at such a run (`env1`: two
pages with matches `1.0`, `1.2`, `1.5`, then a 404): the 404 `break` exits
the `while` loop past the `return matching_tags`, so the function returns
`None` instead of the accumulated list, and `tags_to_delete` then crashes
with a `TypeError` when its flattening comprehension iterates that `None`.
The code contradicts the documented intent of its own 404 handler
("Handle the 404 error here"). -/
theorem C1_pagination_404_yields_none :
    tags_matching_pattern env1 (txt "1.*") = .ok none
    ∧ tags_to_delete env1 = .error .typeError := ⟨rfl, rfl⟩

/-- C2 (amended): a 4xx/5xx answer to a pagination `next` request raises
`HTTPError` with that status unless it is 404, which silently ends the
listing (with the `None` return of C1); the status of the **first** page
request is never checked — `raise_for_status` is only reached for
`next`-link responses — so a first page with any status whose body is
well-formed JSON is processed as a normal page. -/
theorem C2_list_status_handling (env : Env) (pat : Text) (p0 p1 : PageResp)
    (rest : List PageResp) (b0 : PageBody)
    (hauth : raisesStatus env.authStatus = false)
    (hpages : env.pages = p0 :: p1 :: rest)
    (hbody : p0.body = some b0) :
    (b0.next = true → raisesStatus p1.status = true → p1.status ≠ 404 →
      tags_matching_pattern env pat = .error (.http p1.status))
    ∧ (b0.next = true → p1.status = 404 →
      tags_matching_pattern env pat = .ok none)
    ∧ (b0.next = false →
      tags_matching_pattern env pat =
        .ok (some (b0.results.filter (fun t => fnmatchList pat t)))) := by
  unfold tags_matching_pattern docker_hub_token
  rw [hauth, hpages]
  simp only [Bool.false_eq_true, if_false, hbody]
  refine ⟨?_, ?_, ?_⟩
  · intro hnext hs h404
    simp [hnext, listPages, hs, h404]
  · intro hnext hs
    have h404 : raisesStatus 404 = true := rfl
    simp [hnext, listPages, hs, h404]
  · intro hnext
    simp [hnext]

/-- C2 counterexample: the claim as stated says a non-2xx response to the
first page request raises `HTTPError`; here the first page answers 500 with
a well-formed body and the listing succeeds without any error. -/
theorem C2_cx_first_page_status_unchecked :
    env2.pages.head?.map PageResp.status = some 500
    ∧ tags_matching_pattern env2 (txt "1.*") = .ok (some [txt "1.0"])
    ∧ exceptOk (tags_matching_pattern env2 (txt "1.*")) = true := ⟨rfl, rfl, rfl⟩

/-- C2 witness: the three cases of `C2_list_status_handling` at concrete
servers — a 500 on a `next` request raises `HTTPError{500}`, a 404 on a
`next` request raises nothing, and a 500 first page with a good body is
processed as a page. -/
theorem C2_list_status_handling_witness :
    tags_matching_pattern envA (txt "*") = .error (.http 500)
    ∧ tags_matching_pattern envB (txt "*") = .ok none
    ∧ tags_matching_pattern env2 (txt "1.*") = .ok (some [txt "1.0"]) := by
  refine ⟨?_, ?_, ?_⟩
  · exact (C2_list_status_handling envA (txt "*") (mkPage [txt "1.0"] true)
      { status := 500, body := none } [] { results := [txt "1.0"], next := true }
      rfl rfl rfl).1 rfl rfl (by decide)
  · exact (C2_list_status_handling envB (txt "*") (mkPage [txt "1.0"] true)
      { status := 404, body := none } [] { results := [txt "1.0"], next := true }
      rfl rfl rfl).2.1 rfl rfl
  · exact (C2_list_status_handling env2 (txt "1.*")
      { status := 500, body := some { results := [txt "1.0"], next := false } }
      (mkPage [] false) [] { results := [txt "1.0"], next := false }
      rfl rfl rfl).2.2 rfl

/-- C3: `delete_expired_tags` issues DELETE calls strictly in sequence
order; when the tag list is `pre ++ t :: post`, every delete of `pre`
succeeds and the delete of `t` answers 4xx/5xx, then the calls issued are
exactly `pre ++ [t]` (nothing after `t` is attempted), the deletions of
`pre` stay applied on the server, and the run surfaces the failure
(`HTTPError` with that status, non-zero exit, nothing printed). -/
theorem C3_abort_on_first_delete_failure (env : Env) (pre post : List Text)
    (t : Text) (n : Nat)
    (hauth : raisesStatus env.authStatus = false)
    (httd : tags_to_delete env = .ok (pre ++ t :: post, n))
    (hpre : ∀ x ∈ pre, raisesStatus (env.deleteStatus x) = false)
    (ht : raisesStatus (env.deleteStatus t) = true) :
    delete_expired_tags env =
      ⟨pre ++ [t], pre, .error (.http (env.deleteStatus t))⟩
    ∧ (main_run env).printed = []
    ∧ (main_run env).result = .error (.http (env.deleteStatus t)) := by
  have hdel : delete_expired_tags env =
      ⟨pre ++ [t], pre, .error (.http (env.deleteStatus t))⟩ := by
    unfold delete_expired_tags docker_hub_token
    rw [hauth]
    simp only [Bool.false_eq_true, if_false, httd]
    have h := delGo_abort env t ht pre post [] [] hpre
    simpa using h
  have hlen : 0 < (pre ++ t :: post).length := by simp
  refine ⟨hdel, ?_, ?_⟩ <;>
    simp [main_run, httd, hdel, hlen]

/-- C3 witness: three matched tags `v1 v2 v3` where the DELETE of `v2`
answers 500 — `v1` is deleted and retained, `v3` is never attempted, the
run fails. -/
theorem C3_abort_witness :
    delete_expired_tags env3 =
      ⟨[txt "v1", txt "v2"], [txt "v1"], .error (.http 500)⟩
    ∧ (main_run env3).printed = []
    ∧ (main_run env3).result = .error (.http 500) := by
  exact C3_abort_on_first_delete_failure env3 [txt "v1"] [txt "v3"] (txt "v2") 1
    rfl rfl (by decide) rfl

/-- C4 counterexample: the claim says every tag whose DELETE succeeded gets
a confirmation line even when a later delete fails. In `env3` the deletion
of `v1` is applied, the delete of `v2` then fails, and nothing at all is
printed — `__main__` prints only after `delete_expired_tags()` has
returned. -/
theorem C4_cx_no_line_for_applied_deletion :
    (main_run env3).applied = [txt "v1"]
    ∧ (main_run env3).printed = [] := ⟨rfl, rfl⟩

/-- C4 (amended): confirmation lines are printed only when every delete of
the run succeeds — then one line per matched tag, in order, after all the
deletions; if any delete fails, no confirmation line is emitted at all,
including for tags already successfully deleted. -/
theorem C4_lines_printed_only_on_full_success (env : Env) (ts : List Text)
    (n : Nat)
    (httd : tags_to_delete env = .ok (ts, n)) (hne : 0 < ts.length) :
    (exceptOk (delete_expired_tags env).result = true →
      (main_run env).printed = ts.map (mkLine env))
    ∧ (exceptOk (delete_expired_tags env).result = false →
      (main_run env).printed = []) := by
  unfold main_run
  rw [httd]
  simp only [if_pos hne]
  cases h : (delete_expired_tags env).result with
  | error e => simp [exceptOk, h]
  | ok v => simp [exceptOk, h]

/-- C4 witness: the failing run of `env3` prints nothing although `v1` was
deleted; the fully successful run of `env5` prints one line per tag. -/
theorem C4_lines_witness :
    (main_run env3).printed = []
    ∧ (main_run env5).printed =
        [txt "> Deleted org/repo:v1", txt "> Deleted org/repo:v2",
         txt "> Deleted org/repo:v3"] := by
  refine ⟨?_, ?_⟩
  · exact (C4_lines_printed_only_on_full_success env3
      [txt "v1", txt "v2", txt "v3"] 1 rfl (by decide)).2 rfl
  · exact (C4_lines_printed_only_on_full_success env5
      [txt "v1", txt "v2", txt "v3"] 1 rfl (by decide)).1 rfl

/-- C5: a record whose date parses to `d` is classified due, and its
patterns are matched and contribute to the deletion list, exactly when
`now ≥ d` — the comparison of line 152 is inclusive, so a record whose
date equals the captured `now` is due. -/
theorem C5_due_iff_now_ge_date (env : Env) (r : Record) (d : Int)
    (hrec : env.records = [r]) (hd : parse_date env r.date = some d)
    (hauth : raisesStatus env.authStatus = false)
    (hwf : wfPages env.pages = true) :
    tags_to_delete env =
      .ok (if env.now ≥ d
           then ((r.tags.map (matchesOf env)).flatten, r.tags.length)
           else ([], 0)) := by
  have hparse : ∀ q ∈ env.records, (parse_date env q.date).isSome = true := by
    intro q hq
    rw [hrec] at hq
    simp at hq
    subst hq
    simp [hd]
  rw [tags_to_delete_wf env hauth hwf hparse, hrec]
  by_cases hn : env.now ≥ d
  · have hdue : recDue env r = true := by simp [recDue, hd, hn]
    simp [dueLists, spec_expectedFetches, hdue, hn, List.filter_cons]
  · have hdue : recDue env r = false := by simp [recDue, hd, hn]
    simp [dueLists, spec_expectedFetches, hdue, hn, List.filter_cons]

/-- C5 witness: the boundary case — the record's date parses to the exact
instant `now` (both 0) and the record is due: its matches are returned. -/
theorem C5_boundary_witness :
    parse_date env5 dateJan1 = some 0 ∧ env5.now = 0
    ∧ tags_to_delete env5 = .ok ([txt "v1", txt "v2", txt "v3"], 1) := by
  refine ⟨rfl, rfl, ?_⟩
  exact C5_due_iff_now_ge_date env5 { tags := [txt "v*"], date := dateJan1 } 0
    rfl rfl rfl rfl

/-- C6: for a due record, the deletion list is, for each pattern in pattern
order, the live tags matching that (stripped) pattern under `fnmatch` glob
semantics in live-tag (server) order, concatenated across patterns with no
deduplication — `matchesOf` is a `filter` of the live list by the glob
predicate and the lists are flattened in pattern order. -/
theorem C6_matcher_glob_concat (env : Env) (r : Record) (d : Int)
    (hrec : env.records = [r]) (hd : parse_date env r.date = some d)
    (hdue : env.now ≥ d)
    (hauth : raisesStatus env.authStatus = false)
    (hwf : wfPages env.pages = true) :
    tags_to_delete env =
      .ok ((r.tags.map (matchesOf env)).flatten, r.tags.length) := by
  have hparse : ∀ q ∈ env.records, (parse_date env q.date).isSome = true := by
    intro q hq
    rw [hrec] at hq
    simp at hq
    subst hq
    simp [hd]
  rw [tags_to_delete_wf env hauth hwf hparse, hrec]
  have hdue' : recDue env r = true := by simp [recDue, hd, hdue]
  simp [dueLists, spec_expectedFetches, hdue', List.filter_cons]

/-- C6 witness: the spec's example — pattern `1.*` over live tags
`1.0, 1.2.3, 2.0` yields exactly `[1.0, 1.2.3]`; and the two-pattern record
`[1.*, *]` yields the per-pattern matches concatenated in pattern order,
including the duplicates (no dedup). -/
theorem C6_matcher_witness :
    tags_to_delete envG = .ok ([txt "1.0", txt "1.2.3"], 1)
    ∧ tags_to_delete env9 =
        .ok ([txt "1.0", txt "1.2.3", txt "1.0", txt "1.2.3", txt "2.0"], 2) := by
  refine ⟨?_, ?_⟩
  · exact C6_matcher_glob_concat envG { tags := [txt "1.*"], date := dateJan1 } 0
      rfl rfl (by decide) rfl rfl
  · exact C6_matcher_glob_concat env9
      { tags := [txt "1.*", txt "*"], date := dateJan1 } 0
      rfl rfl (by decide) rfl rfl

/-- C7: `parse_md_line` fails (with the column-range error, the only one it
raises) exactly when the configured 1-based tag column or date column
exceeds the number of addressable cells of the row (`spec_cellCount`, the
`len(md) - 1` of the code). -/
theorem C7_column_range_iff (cfg : MdConfig) (line : Text) :
    (parse_md_line cfg line = .error .columnRange) ↔
      (spec_cellCount line < cfg.tag_column
        ∨ spec_cellCount line < cfg.date_column) := by
  unfold parse_md_line spec_cellCount
  by_cases h1 : (splitOnChar '|' (strip line)).length - 1 < cfg.tag_column
  · simp [h1]
  · by_cases h2 : (splitOnChar '|' (strip line)).length - 1 < cfg.date_column
    · simp [h1, h2]
    · simp [h1, h2]

/-- C8: a record list `pre ++ r :: post` in which every record of `pre`
parses and `r`'s date string does not match the format makes the run fail
with the date-parse error inside `tags_to_delete`, before
`delete_expired_tags` ever runs: no DELETE call is issued, nothing is
applied, and `__main__` aborts with that error. -/
theorem C8_date_parse_aborts_before_deletes (env : Env) (pre post : List Record)
    (r : Record)
    (hrec : env.records = pre ++ r :: post)
    (hpre : ∀ q ∈ pre, (parse_date env q.date).isSome = true)
    (hbad : parse_date env r.date = none)
    (hauth : raisesStatus env.authStatus = false)
    (hwf : wfPages env.pages = true) :
    tags_to_delete env = .error .dateParse
    ∧ (main_run env).deleteCalls = []
    ∧ (main_run env).applied = []
    ∧ (main_run env).result = .error Err.dateParse := by
  have httd : tags_to_delete env = .error .dateParse := by
    unfold tags_to_delete
    rw [hrec, recLoop_append env hauth hwf pre (r :: post) [] 0 hpre]
    simp [recLoop, hbad]
  refine ⟨httd, ?_, ?_, ?_⟩ <;> simp [main_run, httd]

/-- C8 witness: a due well-formed record followed by the record with date
`13/45/2024` — the run dies with the date-parse error and zero deletions. -/
theorem C8_date_parse_witness :
    tags_to_delete envBad = .error .dateParse
    ∧ (main_run envBad).deleteCalls = []
    ∧ (main_run envBad).applied = []
    ∧ (main_run envBad).result = .error Err.dateParse := by
  exact C8_date_parse_aborts_before_deletes envBad
    [{ tags := [txt "1.*"], date := dateJan1 }] []
    { tags := [txt "1.*"], date := txt "13/45/2024" }
    rfl (by decide) rfl rfl rfl

/-- C9 counterexample: the claim says the live tag list is fetched exactly
once per due record, never more. `env9` has exactly one due record, with
two patterns, and a run of `tags_to_delete` performs two listing fetches
(the counter in its result counts the `tags_matching_pattern` runs, each of
which issues a fresh paginated GET from page 1). -/
theorem C9_cx_fetch_per_pattern :
    tags_to_delete env9 =
      .ok ([txt "1.0", txt "1.2.3", txt "1.0", txt "1.2.3", txt "2.0"], 2)
    ∧ spec_dueCount env9 = 1 := ⟨rfl, rfl⟩

/-- C9 (amended): each `tags_to_delete` run fetches the live tag list once
per **pattern** of each due record — `spec_expectedFetches`, the sum of the
pattern counts of the due records — not once per due record and not once
globally. -/
theorem C9_fetches_once_per_pattern (env : Env)
    (hauth : raisesStatus env.authStatus = false)
    (hwf : wfPages env.pages = true)
    (hparse : ∀ r ∈ env.records, (parse_date env r.date).isSome = true) :
    tags_to_delete env =
      .ok ((dueLists env env.records).flatten,
           spec_expectedFetches env env.records) :=
  tags_to_delete_wf env hauth hwf hparse

/-- C9 witness: the one-due-record, two-pattern environment performs
`spec_expectedFetches = 2` fetches. -/
theorem C9_fetches_witness :
    tags_to_delete env9 =
      .ok ((dueLists env9 env9.records).flatten,
           spec_expectedFetches env9 env9.records)
    ∧ spec_expectedFetches env9 env9.records = 2 :=
  ⟨C9_fetches_once_per_pattern env9 rfl rfl (by decide), rfl⟩

/-- C10: the header/separator-skipping counter of `get_readme_table` is
global to the file: the reader returns the parse of all candidate rows of
all marker-delimited regions with exactly the first two dropped, so in a
file with two regions the second region's header and separator rows are
parsed and returned as records (the Tags/Date header and the dashes of the
separator below). -/
theorem C10_header_skip_is_file_global :
    (∀ (cfg : MdConfig) (lines : List Text),
      get_readme_table cfg lines =
        mapME (parse_md_line cfg) ((tableCandidates cfg lines).drop 2))
    ∧ get_readme_table mdCfg twoRegionFile =
        .ok [ { tags := [txt "v1"], date := txt "January 01, 2020" },
              { tags := [txt "Tags"], date := txt "Date" },
              { tags := [txt "---"], date := txt "---" },
              { tags := [txt "v2"], date := txt "January 02, 2020" } ] := by
  refine ⟨?_, ?_⟩
  · intro cfg lines
    unfold get_readme_table tableCandidates
    rw [grtGo_eq]
    cases h : mapME (parse_md_line cfg) ((candGo cfg lines false).drop (2 - 0)) with
    | error e => simp [Except.map, h]
    | ok bs => simp [Except.map, h]
  · rfl
